import Mathlib

/-
Verification of the multiplayer-minesweeper server against its
specification.  The definitions below are a shallow embedding of the
JavaScript sources:

  * `src/minesweeper-server/src/config/mapConstants.js` (constants),
  * `src/minesweeper-server/src/core/gameUtils.js` (map oracle),
  * the SQLite repository `db/repository.js` (quoted in
    `src/doc/chats.md`, getCellState / getCellStatesInRegion /
    upsertRevealedCellState / setFlagState / updatePlayerScore),
  * `src/core/gameStateManager.js` (revealCell / performSafeReveal /
    toggleFlag),
  * the `clickCell` validation in
    `src/minesweeper-server/src/controllers/gameController.js`.

Machine integers are modelled as `Nat`/`Int`/`Rat`; IEEE-754 binary64
values that the JavaScript code manipulates are modelled exactly as
rationals, with the BigInt-to-Number conversion expressed as explicit
round-to-nearest-even at 53 significant bits.  Database tables are
association lists; the SQL statements of the repository are translated
operation by operation.  The engine runs sequentially: every repository
read/write happens at a definite point of the embedded function, which
matches the single-threaded interleaving-free execution the claims talk
about.
-/

set_option autoImplicit false

namespace Minesweeper

/-! ### Constants (mapConstants.js, gameStateManager.js) -/

/-- MAP_WIDTH from mapConstants.js. -/
def MAP_WIDTH : ℕ := 640

/-- MAP_HEIGHT from mapConstants.js. -/
def MAP_HEIGHT : ℕ := 640

/-- SCORE_REVEAL_SAFE from gameStateManager.js. -/
def SCORE_REVEAL_SAFE : ℤ := 1

/-- SCORE_HIT_MINE_PENALTY from gameStateManager.js. -/
def SCORE_HIT_MINE_PENALTY : ℤ := -50

/-- STUN_DURATION_MS from gameStateManager.js. -/
def STUN_DURATION_MS : ℕ := 3000

/-! ### Map oracle (gameUtils.js)

`isMine` hashes `seed:x,y` with SHA-256, reads the first 8 bytes as a
big-endian unsigned 64-bit integer `h`, and tests
`Number(h) / Number(2n**64n) < MINE_DENSITY` with IEEE-754 binary64
arithmetic.  We model the digest as a parameter `digest : ℕ → ℕ → ℕ`
(its value depends on the run-time seed, which is configuration, not
source) and model the floating-point steps exactly:

  * `Number(h)` for a BigInt `h < 2^64` is `h` rounded to the nearest
    binary64 value, ties to even; for naturals below `2^64` that is
    rounding to 53 significant bits (`rnd53`).
  * `Number(2n**64n)` is exactly `2^64`.
  * dividing a binary64 value in `[0, 2^64]` by `2^64` is exact, and
    comparing two binary64 values compares their exact rational values,
    so the final test is an exact rational comparison of `rnd53 h / 2^64`
    with the binary64 value nearest to the literal `0.15`, which is
    `5404319552844595 / 2^55`.
-/

/-- Round `h` to a multiple of `2^s`, ties to even multiples: the
rounding a binary64 operation performs on a value whose unit in the last
place is `2^s` (used with `1 ≤ s`). -/
def rshift (s h : ℕ) : ℕ :=
  if h % 2 ^ s < 2 ^ (s - 1) then h / 2 ^ s * 2 ^ s
  else if 2 ^ (s - 1) < h % 2 ^ s then (h / 2 ^ s + 1) * 2 ^ s
  else if h / 2 ^ s % 2 = 0 then h / 2 ^ s * 2 ^ s
  else (h / 2 ^ s + 1) * 2 ^ s

/-- `Number(h)` for a BigInt `0 ≤ h < 2^64`: round to the nearest
binary64 (53 significant bits), ties to even.  The thresholds are the
literal values of `2^53, 2^54, …, 2^63`; a value below `2^53` is exactly
representable, and one in `[2^(52+k), 2^(53+k))` has unit in the last
place `2^k`. -/
def rnd53 (h : ℕ) : ℕ :=
  if h < 9007199254740992 then h
  else if h < 18014398509481984 then rshift 1 h
  else if h < 36028797018963968 then rshift 2 h
  else if h < 72057594037927936 then rshift 3 h
  else if h < 144115188075855872 then rshift 4 h
  else if h < 288230376151711744 then rshift 5 h
  else if h < 576460752303423488 then rshift 6 h
  else if h < 1152921504606846976 then rshift 7 h
  else if h < 2305843009213693952 then rshift 8 h
  else if h < 4611686018427387904 then rshift 9 h
  else if h < 9223372036854775808 then rshift 10 h
  else rshift 11 h

/-- MINE_DENSITY from mapConstants.js: the binary64 value of the literal
`0.15`, namely `5404319552844595 * 2^(-55)`. -/
def MINE_DENSITY : ℚ := 5404319552844595 / 2 ^ 55

/-- `normalizedValue` from gameUtils.isMine: `Number(hashInt) / Number(2n**64n)`
as an exact rational (the division by `2^64` is exact in binary64). -/
def normalizedValue (h : ℕ) : ℚ := (rnd53 h : ℚ) / 2 ^ 64

/-- The comparison `normalizedValue < MINE_DENSITY` of gameUtils.isMine,
as a function of the 64-bit digest prefix `h`. -/
def isMineOfHash (h : ℕ) : Bool := decide (normalizedValue h < MINE_DENSITY)

/-- gameUtils.isMine: out-of-range coordinates yield `false`; otherwise
hash and compare.  `digest x y` stands for the first 8 bytes of
`SHA-256(seed || ":" || x || "," || y)` read big-endian. -/
def isMine (digest : ℕ → ℕ → ℕ) (x y : ℕ) : Bool :=
  if MAP_WIDTH ≤ x ∨ MAP_HEIGHT ≤ y then false
  else isMineOfHash (digest x y)

/-! ### Adjacency (gameUtils.calculateAdjacentMines)

The engine below is parameterised by `mine : ℕ → ℕ → Bool`, standing for
the whole of `gameUtils.isMine` (guard included); the real system uses
`mine = isMine digest`. -/

/-- The eight `(dx, dy)` offsets in the order the nested `for` loops of
calculateAdjacentMines and performSafeReveal produce them
(`dx` outer from -1 to 1, `dy` inner from -1 to 1, skipping `(0,0)`). -/
def offsets : List (ℤ × ℤ) :=
  [(-1, -1), (-1, 0), (-1, 1), (0, -1), (0, 1), (1, -1), (1, 0), (1, 1)]

/-- `eff_nx = (nx + MAP_WIDTH) % MAP_WIDTH` from the sources, for a
possibly negative `nx`. -/
def wrapX (n : ℤ) : ℕ := ((n + MAP_WIDTH) % MAP_WIDTH).toNat

/-- `eff_ny = (ny + MAP_HEIGHT) % MAP_HEIGHT` from the sources. -/
def wrapY (n : ℤ) : ℕ := ((n + MAP_HEIGHT) % MAP_HEIGHT).toNat

/-- gameUtils.calculateAdjacentMines: count mines among the eight
wrap-around neighbours; out-of-range input yields 0. -/
def calculateAdjacentMines (mine : ℕ → ℕ → Bool) (x y : ℕ) : ℕ :=
  if MAP_WIDTH ≤ x ∨ MAP_HEIGHT ≤ y then 0
  else (offsets.filter
    (fun d => mine (wrapX ((x : ℤ) + d.1)) (wrapY ((y : ℤ) + d.2)))).length

/-! ### Persistence repository (db/repository.js, quoted in doc/chats.md)

`map_state(x, y, revealed, is_mine, adjacent_mines, flag_state)` with
primary key `(x, y)`; `is_mine` and `adjacent_mines` are nullable.
The table is an association list whose first entry for a key is the row
(every operation below rewrites or removes all entries for the key it
touches, so duplicates never arise from the modelled operations). -/

/-- One row of `map_state` (without the key columns). -/
structure CellRec where
  revealed : Bool
  is_mine : Option Bool
  adjacent_mines : Option ℕ
  flag_state : Bool
deriving DecidableEq, Repr

abbrev Coord := ℕ × ℕ

abbrev MapState := List (Coord × CellRec)

/-- `players(player_id, score, last_seen)`; `last_seen` is not modelled
(no claim mentions it). -/
abbrev Players := List (String × ℤ)

/-- The whole durable state. -/
structure ServerState where
  map_state : MapState
  players : Players
deriving DecidableEq, Repr

/-- repository.getCellState: `SELECT * FROM map_state WHERE x = ? AND y = ?`;
`none` is the absent (default hidden) record. -/
def getCellState (db : MapState) (x y : ℕ) : Option CellRec :=
  match db with
  | [] => none
  | e :: rest => if e.1 = (x, y) then some e.2 else getCellState rest x y

/-- repository.upsertRevealedCellState: `INSERT OR REPLACE INTO map_state
(x, y, revealed, is_mine, adjacent_mines, flag_state) VALUES (?, ?, 1, ?, ?, 0)`. -/
def upsertRevealedCellState (db : MapState) (x y : ℕ)
    (im : Option Bool) (adj : Option ℕ) : MapState :=
  ((x, y), ⟨true, im, adj, false⟩) :: db.filter (fun e => !(e.1 = (x, y) : Bool))

/-- repository.setFlagState: with `flagValue = 1`, `INSERT OR IGNORE` a row
`(x, y, revealed = 0, flag_state = 1)` (nullable columns stay NULL); with
`flagValue = 0`, `DELETE FROM map_state WHERE x = ? AND y = ? AND revealed = 0`. -/
def setFlagState (db : MapState) (x y : ℕ) (flagValue : Bool) : MapState :=
  if flagValue then
    match getCellState db x y with
    | some _ => db
    | none => ((x, y), ⟨false, none, none, true⟩) :: db
  else
    db.filter (fun e => !((e.1 = (x, y) : Bool) && !e.2.revealed))

/-- repository.getCellStatesInRegion: the `WHERE` clause is the
conjunction of an X condition and a Y condition, each `BETWEEN` when
`min ≤ max` and `(c >= min OR c <= max)` otherwise.  Argument order as in
the source: `(xMin, yMin, xMax, yMax)`. -/
def getCellStatesInRegion (db : MapState) (xMin yMin xMax yMax : ℕ) : MapState :=
  db.filter (fun e =>
    (if xMin ≤ xMax then decide (xMin ≤ e.1.1 ∧ e.1.1 ≤ xMax)
     else decide (e.1.1 ≥ xMin ∨ e.1.1 ≤ xMax)) &&
    (if yMin ≤ yMax then decide (yMin ≤ e.1.2 ∧ e.1.2 ≤ yMax)
     else decide (e.1.2 ≥ yMin ∨ e.1.2 ≤ yMax)))

/-- repository.updatePlayerScore: `UPDATE players SET score = score + ?
WHERE player_id = ?` (updates existing rows only, creates none). -/
def updatePlayerScore (ps : Players) (pid : String) (delta : ℤ) : Players :=
  ps.map (fun e => if e.1 = pid then (e.1, e.2 + delta) else e)

/-- Score lookup (`SELECT score FROM players WHERE player_id = ?`). -/
def lookupPlayer (ps : Players) (pid : String) : Option ℤ :=
  match ps with
  | [] => none
  | e :: rest => if e.1 = pid then some e.2 else lookupPlayer rest pid

/-! ### Cell state engine (gameStateManager.js) -/

/-- The `existingState?.revealed === 1 || existingState?.flag_state === 1`
test used by revealCell and by the flood-fill peeks. -/
def blocked (o : Option CellRec) : Bool :=
  match o with
  | none => false
  | some r => r.revealed || r.flag_state

/-- Client-facing cell state tag (`'hidden' | 'revealed' | 'flagged' | 'mine'`). -/
inductive OutState where
  | hidden
  | revealed
  | flagged
  | mine
deriving DecidableEq, Repr

/-- An element of `revealedCells` in a reveal result: `{ x, y, state, value }`. -/
structure OutCell where
  x : ℕ
  y : ℕ
  state : OutState
  value : Option ℤ
deriving DecidableEq, Repr

/-- The `cellState` object of a toggleFlag result: `{ x, y, state }`. -/
structure FlagCellState where
  x : ℕ
  y : ℕ
  state : OutState
deriving DecidableEq, Repr

/-- Result of revealCell (`status` with its payload fields). -/
inductive RevealResult where
  | ignored
  | mineHit (scoreDelta : ℤ) (stunDurationMs : ℕ) (revealedCells : List OutCell)
  | revealed (scoreDelta : ℤ) (revealedCells : List OutCell)
deriving DecidableEq, Repr

/-- Result of toggleFlag (`status` plus the broadcast `cellState`). -/
inductive FlagResult where
  | ignored
  | flagged (cellState : FlagCellState)
  | unflagged (cellState : FlagCellState)
deriving DecidableEq, Repr

/-- An entry of `cellsToReveal`: `{ x, y, is_mine, adjacent_mines }`. -/
structure CellData where
  x : ℕ
  y : ℕ
  is_mine : Option Bool
  adjacent_mines : Option ℕ
deriving DecidableEq, Repr

/-- The mutable locals of performSafeReveal's while-loop, plus two
observation logs: `peeks` records every neighbour `getCellState` call of
the flood-fill, `enqueued` records every coordinate ever pushed on the
queue (the start cell included).  The logs record repository calls and
queue pushes; they influence nothing. -/
structure FloodSt where
  queue : List Coord
  visited : List Coord
  cellsToReveal : List CellData
  scoreChange : ℤ
  peeks : List Coord
  enqueued : List Coord
deriving DecidableEq, Repr

/-- The body of the neighbour loop of performSafeReveal for one wrapped
neighbour key `eff`: if the key is in bounds and not visited, peek the
repository; enqueue and mark visited only when the peek shows neither
revealed nor flagged. -/
def scanStep (db : MapState) (s : FloodSt) (eff : Coord) : FloodSt :=
  if eff.1 < MAP_WIDTH ∧ eff.2 < MAP_HEIGHT ∧ eff ∉ s.visited then
    if blocked (getCellState db eff.1 eff.2) then
      { s with peeks := s.peeks ++ [eff] }
    else
      { s with
          peeks := s.peeks ++ [eff],
          queue := s.queue ++ [eff],
          visited := s.visited ++ [eff],
          enqueued := s.enqueued ++ [eff] }
  else s

/-- The neighbour scan of performSafeReveal for a popped zero-adjacency
cell: the two nested `for` loops over the eight offsets. -/
def scanNeighbors (db : MapState) (x y : ℕ) (s0 : FloodSt) : FloodSt :=
  offsets.foldl
    (fun s d => scanStep db s (wrapX ((x : ℤ) + d.1), wrapY ((y : ℤ) + d.2))) s0

/-- One iteration of the while-loop body after popping `(x, y)`:
re-check the repository, skip if revealed or flagged, otherwise record the
cell, count the score, and scan neighbours when the adjacency is 0. -/
def floodStep (mine : ℕ → ℕ → Bool) (db : MapState) (x y : ℕ) (s : FloodSt) :
    FloodSt :=
  if blocked (getCellState db x y) then s
  else
    let adjacentMines := calculateAdjacentMines mine x y
    let s1 : FloodSt := { s with
      cellsToReveal := s.cellsToReveal ++ [⟨x, y, some false, some adjacentMines⟩],
      scoreChange := s.scoreChange + SCORE_REVEAL_SAFE }
    if adjacentMines = 0 then scanNeighbors db x y s1 else s1

/-- The while-loop of performSafeReveal.  The loop body never writes the
repository (all writes happen after the queue drains), so the loop reads
a fixed `db`.  `fuel` bounds the number of pops; `performSafeReveal`
supplies `MAP_WIDTH * MAP_HEIGHT`, which the termination theorem below
shows is never exhausted for an in-range start. -/
def floodLoop (mine : ℕ → ℕ → Bool) (db : MapState) :
    ℕ → FloodSt → FloodSt
  | 0, s => s
  | fuel + 1, s =>
    match s.queue with
    | [] => s
    | c :: rest =>
      floodLoop mine db fuel (floodStep mine db c.1 c.2 { s with queue := rest })

/-- Initial flood state: queue and visited seeded with the start key. -/
def floodInit (x y : ℕ) : FloodSt :=
  ⟨[(x, y)], [(x, y)], [], 0, [], [(x, y)]⟩

/-- The drained flood state for a given start. -/
def floodResult (mine : ℕ → ℕ → Bool) (db : MapState) (x y : ℕ) : FloodSt :=
  floodLoop mine db (MAP_WIDTH * MAP_HEIGHT) (floodInit x y)

/-- gameStateManager.performSafeReveal: run the flood, then (only when at
least one cell was collected) upsert every collected cell and add the
accumulated score change to the player's row.  Returns
`(revealedCells, scoreDelta)` and the updated state. -/
def performSafeReveal (mine : ℕ → ℕ → Bool) (st : ServerState)
    (startX startY : ℕ) (pid : String) : (List CellData × ℤ) × ServerState :=
  let fin := floodResult mine st.map_state startX startY
  if fin.cellsToReveal.length > 0 then
    ((fin.cellsToReveal, fin.scoreChange),
     { map_state := fin.cellsToReveal.foldl
         (fun db c => upsertRevealedCellState db c.x c.y c.is_mine c.adjacent_mines)
         st.map_state,
       players := updatePlayerScore st.players pid fin.scoreChange })
  else ((fin.cellsToReveal, fin.scoreChange), st)

/-- gameStateManager.revealCell. -/
def revealCell (mine : ℕ → ℕ → Bool) (pid : String) (x y : ℕ)
    (st : ServerState) : RevealResult × ServerState :=
  if blocked (getCellState st.map_state x y) then (.ignored, st)
  else if mine x y then
    (.mineHit SCORE_HIT_MINE_PENALTY STUN_DURATION_MS
       [⟨x, y, .mine, some (-1)⟩],
     { map_state := upsertRevealedCellState st.map_state x y (some true) none,
       players := updatePlayerScore st.players pid SCORE_HIT_MINE_PENALTY })
  else
    let r := performSafeReveal mine st x y pid
    if r.1.1.length = 0 then (.ignored, r.2)
    else
      (.revealed r.1.2
         (r.1.1.map (fun c => ⟨c.x, c.y, .revealed, c.adjacent_mines.map Int.ofNat⟩)),
       r.2)

/-- gameStateManager.toggleFlag. -/
def toggleFlag (pid : String) (x y : ℕ) (st : ServerState) :
    FlagResult × ServerState :=
  let existing := getCellState st.map_state x y
  if (existing.map (·.revealed)).getD false then (.ignored, st)
  else if (existing.map (·.flag_state)).getD false then
    (.unflagged ⟨x, y, .hidden⟩,
     { st with map_state := setFlagState st.map_state x y false })
  else
    (.flagged ⟨x, y, .flagged⟩,
     { st with map_state := setFlagState st.map_state x y true })

/-! ### Engine operation sequences (for the monotonicity invariant) -/

/-- One engine operation as dispatched by gameController.handleMessage. -/
inductive Op where
  | click (pid : String) (x y : ℕ)
  | flag (pid : String) (x y : ℕ)
deriving DecidableEq, Repr

/-- State after one operation. -/
def applyOp (mine : ℕ → ℕ → Bool) (st : ServerState) : Op → ServerState
  | .click pid x y => (revealCell mine pid x y st).2
  | .flag pid x y => (toggleFlag pid x y st).2

/-- State after a finite sequence of operations. -/
def applyOps (mine : ℕ → ℕ → Bool) (ops : List Op) (st : ServerState) :
    ServerState :=
  ops.foldl (applyOp mine) st

/-! ### clickCell validation (gameController.handleMessage)

The payload fields of an inbound message are arbitrary JSON values that
JavaScript sees as doubles, NaN, infinities, or non-numbers.  The
validation is
`typeof x !== 'number' || typeof y !== 'number' || x < 0 || x >= MAP_WIDTH
 || y < 0 || y >= MAP_HEIGHT` and `revealCell` is called exactly when it
fails to trigger.  Finite doubles are modelled as exact rationals;
comparisons follow IEEE-754 (`NaN` compares false to everything). -/

/-- A JavaScript value as seen by the coordinate validation. -/
inductive JSVal where
  | num (q : ℚ)
  | nan
  | inf
  | negInf
  | other
deriving DecidableEq, Repr

/-- `typeof v === 'number'` (NaN and the infinities are numbers). -/
def isNumber : JSVal → Bool
  | .other => false
  | _ => true

/-- The JavaScript comparison `v < c` for a rational literal `c`. -/
def jsLt (v : JSVal) (c : ℚ) : Bool :=
  match v with
  | .num q => decide (q < c)
  | .nan => false
  | .inf => false
  | .negInf => true
  | .other => false

/-- The JavaScript comparison `v >= c` for a rational literal `c`. -/
def jsGe (v : JSVal) (c : ℚ) : Bool :=
  match v with
  | .num q => decide (c ≤ q)
  | .nan => false
  | .inf => true
  | .negInf => false
  | .other => false

/-- The early-return condition of the `clickCell` branch of
handleMessage. -/
def clickCellRejected (x y : JSVal) : Bool :=
  !isNumber x || !isNumber y || jsLt x 0 || jsGe x (MAP_WIDTH : ℚ)
    || jsLt y 0 || jsGe y (MAP_HEIGHT : ℚ)

/-- `handleMessage` reaches the `gameStateManager.revealCell` call for a
`clickCell` message exactly when the validation does not return early. -/
def clickCellCallsReveal (x y : JSVal) : Bool := !clickCellRejected x y

/-- The property the claim asserts of an accepted coordinate: an integer
in `[0, W)`. -/
def isIntCoordInRange (v : JSVal) (w : ℕ) : Prop :=
  ∃ n : ℕ, v = .num n ∧ n < w

/-- The coordinates the validation actually accepts: NaN, or a finite
number inside `[0, w)` (integer or not). -/
def acceptedCoord (v : JSVal) (w : ℕ) : Prop :=
  v = .nan ∨ ∃ q : ℚ, v = .num q ∧ 0 ≤ q ∧ q < w

/-! ### Spec-side definitions

These definitions transcribe the specification's words (not the code);
the refinement theorems below compare them with the code-derived
definitions above. -/

/-- Modelled from the spec: the wrap-aware region predicate of §3/§4.B:
"build the X-predicate as `x BETWEEN xMin AND xMax` when `xMin ≤ xMax`,
else `(x ≥ xMin ∨ x ≤ xMax)`.  Mirror for Y.  Conjoin the two." -/
def inRegionSpec (xMin xMax yMin yMax x y : ℕ) : Prop :=
  (if xMin ≤ xMax then xMin ≤ x ∧ x ≤ xMax else x ≥ xMin ∨ x ≤ xMax) ∧
  (if yMin ≤ yMax then yMin ≤ y ∧ y ≤ yMax else y ≥ yMin ∨ y ≤ yMax)

/-- Modelled from the spec: `adjacentMines(x,y) = Σ isMine((x+dx) mod W,
(y+dy) mod H)` over the eight neighbours, the modulus taken so that
negative coordinates wrap. -/
def adjacentMinesSpec (mine : ℕ → ℕ → Bool) (x y : ℕ) : ℕ :=
  (offsets.map (fun d =>
    if mine (((x : ℤ) + d.1) % (MAP_WIDTH : ℤ)).toNat
            (((y : ℤ) + d.2) % (MAP_HEIGHT : ℤ)).toNat
    then 1 else 0)).sum

/-! ### Verification-side flood-loop invariants -/

/-- The visited list of the flood loop is duplicate-free and holds only
in-grid keys. -/
def VisitedInv (s : FloodSt) : Prop :=
  s.visited.Nodup ∧ ∀ v ∈ s.visited, v.1 < MAP_WIDTH ∧ v.2 < MAP_HEIGHT

/-- Termination measure of the flood loop: pending queue entries plus
grid cells not yet visited. -/
def floodMeasure (s : FloodSt) : ℕ :=
  s.queue.length + (MAP_WIDTH * MAP_HEIGHT - s.visited.length)

/-! ### Concrete fixtures used by counterexamples and witnesses -/

/-- A mine layout whose only safe cells are the 5-by-5 patch at the
origin: the flood started inside the patch stays inside it. -/
def mine0 : ℕ → ℕ → Bool := fun x y => !(x < 5 && y < 5)

/-- A map with a single flagged record at `(2, 0)`. -/
def db0 : MapState := [((2, 0), ⟨false, none, none, true⟩)]

/-- A revealed safe record used in region-query scenarios. -/
def rec0 : CellRec := ⟨true, some false, some 0, false⟩

/-- A map holding revealed records at `(1, 1)` and `(639, 639)`. -/
def db5 : MapState := [((1, 1), rec0), ((639, 639), rec0)]

/-! ## Theorems -/

/-! ### C4: the mine threshold under binary64 arithmetic -/

/-- Rounding to a multiple of `2^s` moves a value up by at most half a
unit in the last place. -/
theorem rshift_le (s h : ℕ) (hs : 1 ≤ s) : rshift s h ≤ h + 2 ^ (s - 1) := by
  have h2 : 2 ^ (s - 1) * 2 = 2 ^ s := by rw [← pow_succ, Nat.sub_add_cancel hs]
  have hd : h / 2 ^ s * 2 ^ s + h % 2 ^ s = h := Nat.div_add_mod' h (2 ^ s)
  have hr : h % 2 ^ s < 2 ^ s := Nat.mod_lt _ (by positivity)
  unfold rshift
  split_ifs <;> (try simp only [add_mul, one_mul]) <;> omega

/-- Rounding to a multiple of `2^s` moves a value down by at most half a
unit in the last place. -/
theorem le_rshift (s h : ℕ) (hs : 1 ≤ s) : h ≤ rshift s h + 2 ^ (s - 1) := by
  have h2 : 2 ^ (s - 1) * 2 = 2 ^ s := by rw [← pow_succ, Nat.sub_add_cancel hs]
  have hd : h / 2 ^ s * 2 ^ s + h % 2 ^ s = h := Nat.div_add_mod' h (2 ^ s)
  have hr : h % 2 ^ s < 2 ^ s := Nat.mod_lt _ (by positivity)
  unfold rshift
  split_ifs <;> (try simp only [add_mul, one_mul]) <;> omega

/-- In the binade `[2^61, 2^62)` of the threshold, rounding at unit
`2^9 = 512` sends a value below `fl(0.15)·2^64 = 2767011611056432640`
exactly when the value is at most `2767011611056432384` (the tie at
`…384 = threshold − 256` rounds down to the even significand). -/
theorem rshift9_lt (h : ℕ) :
    rshift 9 h < 2767011611056432640 ↔ h ≤ 2767011611056432384 := by
  simp only [rshift, show ((9 : ℕ) - 1) = 8 from rfl,
    show (2 : ℕ) ^ 9 = 512 from by norm_num,
    show (2 : ℕ) ^ 8 = 256 from by norm_num]
  split_ifs <;> omega

set_option maxHeartbeats 4000000 in
/-- The binary64 comparison of `gameUtils.isMine` as an integer
threshold on the 64-bit digest prefix. -/
theorem rnd53_lt (h : ℕ) :
    rnd53 h < 2767011611056432640 ↔ h ≤ 2767011611056432384 := by
  have hb1 := rshift_le 1 h (by norm_num)
  have hb2 := rshift_le 2 h (by norm_num)
  have hb3 := rshift_le 3 h (by norm_num)
  have hb4 := rshift_le 4 h (by norm_num)
  have hb5 := rshift_le 5 h (by norm_num)
  have hb6 := rshift_le 6 h (by norm_num)
  have hb7 := rshift_le 7 h (by norm_num)
  have hb8 := rshift_le 8 h (by norm_num)
  have hb10 := le_rshift 10 h (by norm_num)
  have hb11 := le_rshift 11 h (by norm_num)
  have h9 := rshift9_lt h
  norm_num at hb1 hb2 hb3 hb4 hb5 hb6 hb7 hb8 hb10 hb11
  unfold rnd53
  split_ifs
  all_goals omega

/-- The rational comparison in `isMineOfHash` reduces to a natural-number
comparison of the rounded digest with `fl(0.15)·2^64`. -/
theorem isMineOfHash_iff (h : ℕ) :
    isMineOfHash h = true ↔ rnd53 h < 2767011611056432640 := by
  simp only [isMineOfHash, decide_eq_true_eq, normalizedValue, MINE_DENSITY]
  rw [div_lt_div_iff₀ (by positivity) (by positivity)]
  rw [show (5404319552844595 : ℚ) * 2 ^ 64 = 2767011611056432640 * 2 ^ 55 by norm_num]
  rw [mul_lt_mul_right (by positivity : (0 : ℚ) < 2 ^ 55)]
  exact_mod_cast Iff.rfl

/-- C4, counterexample.  The claim says `isMine` is true exactly when the
exact rational inequality `h / 2^64 < 0.15` holds.  The digest value
`h = 2767011611056432742` (an admissible 64-bit value, so produced by
SHA-256 for some seed and cell as far as the source constrains it)
satisfies the exact inequality, yet `isMine` returns `false`: the lossy
`Number(hashInt)` conversion rounds `h` down to `2767011611056432640 =
fl(0.15)·2^64`, and the strict comparison fails. -/
theorem claim4_counterexample :
    isMine (fun a b => 2767011611056432742) 0 0 = false ∧
    (2767011611056432742 : ℚ) / 2 ^ 64 < 3 / 20 ∧
    2767011611056432742 < 2 ^ 64 := by
  refine ⟨?_, ?_, by norm_num⟩
  · have : isMine (fun a b => 2767011611056432742) 0 0 =
        isMineOfHash 2767011611056432742 := by
      simp [isMine, MAP_WIDTH, MAP_HEIGHT]
    rw [this, Bool.eq_false_iff, Ne, isMineOfHash_iff]
    decide
  · rw [div_lt_div_iff₀ (by positivity) (by positivity)]
    norm_num

/-- C4, amended.  For an in-range cell and any 64-bit digest value
`h = digest x y`, `isMine` returns true iff `rnd53 h < fl(0.15)·2^64`,
equivalently iff `h ≤ 2767011611056432384`; this implies the exact
inequality `h / 2^64 < 0.15` that the claim states, but not conversely
(the 358 values above the code's cut-off and below `0.15·2^64` count as
safe). -/
theorem claim4_amended (digest : ℕ → ℕ → ℕ) (x y : ℕ)
    (hx : x < MAP_WIDTH) (hy : y < MAP_HEIGHT) (hd : digest x y < 2 ^ 64) :
    (isMine digest x y = true ↔ digest x y ≤ 2767011611056432384) ∧
    (isMine digest x y = true → (digest x y : ℚ) / 2 ^ 64 < 3 / 20) := by
  have hguard : isMine digest x y = isMineOfHash (digest x y) := by
    simp only [isMine, if_neg (by omega : ¬ (MAP_WIDTH ≤ x ∨ MAP_HEIGHT ≤ y))]
  have hiff : isMine digest x y = true ↔ digest x y ≤ 2767011611056432384 := by
    rw [hguard, isMineOfHash_iff, rnd53_lt]
  refine ⟨hiff, fun hm => ?_⟩
  have hle : digest x y ≤ 2767011611056432384 := hiff.mp hm
  have hq : ((digest x y : ℕ) : ℚ) ≤ 2767011611056432384 := by exact_mod_cast hle
  rw [div_lt_div_iff₀ (by positivity) (by positivity)]
  nlinarith [hq]

/-- C4, witness for the amended theorem at digest value 0 and cell (0,0). -/
theorem claim4_witness :
    (isMine (fun a b => 0) 0 0 = true ↔ (0 : ℕ) ≤ 2767011611056432384) ∧
    (isMine (fun a b => 0) 0 0 = true → ((0 : ℕ) : ℚ) / 2 ^ 64 < 3 / 20) :=
  claim4_amended (fun a b => 0) 0 0 (by norm_num [MAP_WIDTH])
    (by norm_num [MAP_HEIGHT]) (by norm_num)

/-! ### C9: adjacency count -/

/-- Counting with a filter is summing indicator values. -/
theorem length_filter_eq_sum {α : Type} (f : α → Bool) (l : List α) :
    (l.filter f).length = (l.map (fun a => if f a then 1 else 0)).sum := by
  induction l with
  | nil => rfl
  | cons a t ih =>
    by_cases h : f a <;> simp [List.filter_cons, h, ih] <;> omega

/-- The source's `(n + W) % W` equals the plain mathematical `n % W`. -/
theorem wrapX_eq (n : ℤ) : wrapX n = (n % (MAP_WIDTH : ℤ)).toNat := by
  simp only [wrapX, MAP_WIDTH]
  congr 1
  omega

/-- The source's `(n + H) % H` equals the plain mathematical `n % H`. -/
theorem wrapY_eq (n : ℤ) : wrapY n = (n % (MAP_HEIGHT : ℤ)).toNat := by
  simp only [wrapY, MAP_HEIGHT]
  congr 1
  omega

/-- C9: for in-range coordinates, calculateAdjacentMines is the sum of
the oracle over the eight wrapped neighbours, and lies in `[0, 8]`. -/
theorem claim9_adjacency (mine : ℕ → ℕ → Bool) (x y : ℕ)
    (hx : x < MAP_WIDTH) (hy : y < MAP_HEIGHT) :
    calculateAdjacentMines mine x y = adjacentMinesSpec mine x y ∧
    calculateAdjacentMines mine x y ≤ 8 := by
  constructor
  · rw [calculateAdjacentMines, if_neg (by omega), adjacentMinesSpec,
      length_filter_eq_sum]
    congr 1
    apply List.map_congr_left
    intro d _
    rw [wrapX_eq, wrapY_eq]
  · calc calculateAdjacentMines mine x y
        ≤ (offsets.filter
            (fun d => mine (wrapX ((x : ℤ) + d.1)) (wrapY ((y : ℤ) + d.2)))).length := by
          rw [calculateAdjacentMines, if_neg (by omega)]
      _ ≤ offsets.length := List.length_filter_le _ _
      _ = 8 := rfl

/-- C9 witness at `(0, 0)` with the all-mines oracle. -/
theorem claim9_witness :
    calculateAdjacentMines (fun a b => true) 0 0 =
      adjacentMinesSpec (fun a b => true) 0 0 ∧
    calculateAdjacentMines (fun a b => true) 0 0 ≤ 8 :=
  claim9_adjacency (fun a b => true) 0 0 (by norm_num [MAP_WIDTH])
    (by norm_num [MAP_HEIGHT])

/-! ### Association-list lemmas shared by the state-engine claims -/

/-- Lookup after consing the looked-up key. -/
theorem getCellState_cons_self (db : MapState) (x y : ℕ) (r : CellRec) :
    getCellState (((x, y), r) :: db) x y = some r := by
  simp [getCellState]

/-- Filtering cannot create a record for an absent key. -/
theorem getCellState_filter_none (db : MapState) (f : Coord × CellRec → Bool)
    (x y : ℕ) (h : getCellState db x y = none) :
    getCellState (db.filter f) x y = none := by
  induction db with
  | nil => simp [getCellState]
  | cons e t ih =>
    by_cases hk : e.1 = (x, y)
    · simp [getCellState, hk] at h
    · have ht : getCellState t x y = none := by
        simpa [getCellState, hk] using h
      by_cases hf : f e <;> simp [List.filter_cons, hf, getCellState, hk, ih ht]

/-! ### C5: region queries -/

/-- C5: getCellStatesInRegion returns exactly the stored cells whose
coordinates satisfy the spec's wrap-aware interval predicate; in
particular the wrapped region `xMin = 638, xMax = 2, yMin = 638, yMax = 2`
returns both `(1,1)` and `(639,639)` when stored. -/
theorem claim5_region_query :
    (∀ (xMin yMin xMax yMax : ℕ) (db : MapState) (e : Coord × CellRec),
        e ∈ getCellStatesInRegion db xMin yMin xMax yMax ↔
          e ∈ db ∧ inRegionSpec xMin xMax yMin yMax e.1.1 e.1.2) ∧
    ((1, 1), rec0) ∈ getCellStatesInRegion db5 638 638 2 2 ∧
    ((639, 639), rec0) ∈ getCellStatesInRegion db5 638 638 2 2 := by
  refine ⟨?_, by decide, by decide⟩
  intro xMin yMin xMax yMax db e
  simp only [getCellStatesInRegion, List.mem_filter, Bool.and_eq_true,
    inRegionSpec]
  apply and_congr Iff.rfl
  split_ifs <;> simp

/-! ### C3: clickCell validation -/

/-- C3, counterexample: the payload `{x: NaN, y: 100}` is numeric and
passes every IEEE comparison in the validation (NaN compares false to
everything), so `revealCell` is called, yet NaN is not an integer in
`[0, W)`. -/
theorem claim3_counterexample :
    clickCellCallsReveal JSVal.nan (JSVal.num 100) = true ∧
    ¬ isIntCoordInRange JSVal.nan MAP_WIDTH := by
  constructor
  · rfl
  · rintro ⟨n, hn, -⟩
    exact JSVal.noConfusion hn

/-- C3, amended: the dispatcher calls reveal iff each coordinate is a JS
number that is either NaN or a finite value in `[0, W)` — integers are
not singled out; 3.5 or NaN also reach `revealCell`, and non-numbers,
the infinities and out-of-range numbers are rejected. -/
theorem claim3_amended (x y : JSVal) :
    clickCellCallsReveal x y = true ↔
      acceptedCoord x MAP_WIDTH ∧ acceptedCoord y MAP_HEIGHT := by
  cases x <;> cases y <;>
    simp [clickCellCallsReveal, clickCellRejected, isNumber, jsLt, jsGe,
      acceptedCoord, not_lt, not_le] <;> tauto

/-! ### C10: flag toggling round-trip -/

/-- C10: toggling the flag twice on an absent (default hidden) cell first
creates the record `(revealed = 0, flag = 1)` with outcome Flagged, then
removes the record with outcome Unflagged, leaving the cell absent. -/
theorem claim10_flag_roundtrip (st : ServerState) (x y : ℕ) (p q : String)
    (h : getCellState st.map_state x y = none) :
    (toggleFlag p x y st).1 = FlagResult.flagged ⟨x, y, OutState.flagged⟩ ∧
    getCellState (toggleFlag p x y st).2.map_state x y =
      some ⟨false, none, none, true⟩ ∧
    (toggleFlag q x y (toggleFlag p x y st).2).1 =
      FlagResult.unflagged ⟨x, y, OutState.hidden⟩ ∧
    getCellState (toggleFlag q x y (toggleFlag p x y st).2).2.map_state x y =
      none := by
  have h1 : toggleFlag p x y st =
      (FlagResult.flagged ⟨x, y, OutState.flagged⟩,
       { st with map_state := ((x, y), ⟨false, none, none, true⟩) :: st.map_state }) := by
    simp [toggleFlag, h, setFlagState]
  rw [h1]
  have h2 : getCellState
      (((x, y), (⟨false, none, none, true⟩ : CellRec)) :: st.map_state) x y =
      some ⟨false, none, none, true⟩ := getCellState_cons_self _ _ _ _
  refine ⟨rfl, h2, ?_, ?_⟩
  · simp [toggleFlag, h2]
  · simp [toggleFlag, h2, setFlagState, List.filter_cons,
      getCellState_filter_none _ _ _ _ h]

/-- C10 witness: the empty database at `(50, 50)`. -/
theorem claim10_witness :
    (toggleFlag "a" 50 50 ⟨[], []⟩).1 = FlagResult.flagged ⟨50, 50, OutState.flagged⟩ ∧
    getCellState (toggleFlag "a" 50 50 ⟨[], []⟩).2.map_state 50 50 =
      some ⟨false, none, none, true⟩ ∧
    (toggleFlag "b" 50 50 (toggleFlag "a" 50 50 ⟨[], []⟩).2).1 =
      FlagResult.unflagged ⟨50, 50, OutState.hidden⟩ ∧
    getCellState (toggleFlag "b" 50 50 (toggleFlag "a" 50 50 ⟨[], []⟩).2).2.map_state 50 50 =
      none :=
  claim10_flag_roundtrip ⟨[], []⟩ 50 50 "a" "b" rfl

/-! ### Flood-fill loop lemmas and C8: termination and bound -/

theorem foldl_preserve {α β : Type} (P : β → Prop) (f : β → α → β)
    (hf : ∀ b a, P b → P (f b a)) :
    ∀ (l : List α) (b : β), P b → P (l.foldl f b) := by
  intro l
  induction l with
  | nil => intro b hb; exact hb
  | cons a t ih => intro b hb; exact ih _ (hf b a hb)

theorem scanStep_cells (db : MapState) (s : FloodSt) (eff : Coord) :
    (scanStep db s eff).cellsToReveal = s.cellsToReveal := by
  unfold scanStep; split_ifs <;> rfl

theorem scanStep_score (db : MapState) (s : FloodSt) (eff : Coord) :
    (scanStep db s eff).scoreChange = s.scoreChange := by
  unfold scanStep; split_ifs <;> rfl

theorem scanNeighbors_cells (db : MapState) (x y : ℕ) (s : FloodSt) :
    (scanNeighbors db x y s).cellsToReveal = s.cellsToReveal := by
  exact foldl_preserve (fun b => b.cellsToReveal = s.cellsToReveal) _
    (fun b a hb => (scanStep_cells db b _).trans hb) offsets s rfl

theorem scanNeighbors_score (db : MapState) (x y : ℕ) (s : FloodSt) :
    (scanNeighbors db x y s).scoreChange = s.scoreChange := by
  exact foldl_preserve (fun b => b.scoreChange = s.scoreChange) _
    (fun b a hb => (scanStep_score db b _).trans hb) offsets s rfl

theorem nodup_append_singleton {α : Type} (l : List α) (a : α)
    (hn : l.Nodup) (ha : a ∉ l) : (l ++ [a]).Nodup := by
  rw [List.nodup_append]
  refine ⟨hn, List.nodup_singleton _, ?_⟩
  intro b hb hb2
  rcases List.mem_singleton.mp hb2 with rfl
  exact ha hb

theorem nodup_grid_length_le (l : List Coord) (hn : l.Nodup)
    (hg : ∀ v ∈ l, v.1 < MAP_WIDTH ∧ v.2 < MAP_HEIGHT) :
    l.length ≤ MAP_WIDTH * MAP_HEIGHT := by
  classical
  rw [← List.toFinset_card_of_nodup hn]
  have hsub : l.toFinset ⊆ Finset.range MAP_WIDTH ×ˢ Finset.range MAP_HEIGHT := by
    intro v hv
    rw [List.mem_toFinset] at hv
    rw [Finset.mem_product, Finset.mem_range, Finset.mem_range]
    exact hg v hv
  calc l.toFinset.card ≤ (Finset.range MAP_WIDTH ×ˢ Finset.range MAP_HEIGHT).card :=
        Finset.card_le_card hsub
    _ = MAP_WIDTH * MAP_HEIGHT := by
        rw [Finset.card_product, Finset.card_range, Finset.card_range]

theorem scanStep_inv_measure (db : MapState) (s : FloodSt) (eff : Coord)
    (h : VisitedInv s) :
    VisitedInv (scanStep db s eff) ∧
      floodMeasure (scanStep db s eff) ≤ floodMeasure s := by
  obtain ⟨hn, hg⟩ := h
  unfold scanStep
  split_ifs with h1 h2
  · exact ⟨⟨hn, hg⟩, le_refl _⟩
  · obtain ⟨he1, he2, he3⟩ := h1
    have hnodup : (s.visited ++ [eff]).Nodup := nodup_append_singleton _ _ hn he3
    have hgrid : ∀ v ∈ s.visited ++ [eff], v.1 < MAP_WIDTH ∧ v.2 < MAP_HEIGHT := by
      intro v hv
      rcases List.mem_append.mp hv with hv | hv
      · exact hg v hv
      · rcases List.mem_singleton.mp hv with rfl
        exact ⟨he1, he2⟩
    refine ⟨⟨hnodup, hgrid⟩, ?_⟩
    have hlen : (s.visited ++ [eff]).length ≤ MAP_WIDTH * MAP_HEIGHT :=
      nodup_grid_length_le _ hnodup hgrid
    simp only [floodMeasure, List.length_append, List.length_singleton] at hlen ⊢
    omega
  · exact ⟨⟨hn, hg⟩, le_refl _⟩

theorem scanNeighbors_inv_measure (db : MapState) (x y : ℕ) (s : FloodSt)
    (h : VisitedInv s) :
    VisitedInv (scanNeighbors db x y s) ∧
      floodMeasure (scanNeighbors db x y s) ≤ floodMeasure s := by
  exact foldl_preserve (fun b => VisitedInv b ∧ floodMeasure b ≤ floodMeasure s) _
    (fun b a hb => by
      obtain ⟨hi, hm⟩ := hb
      obtain ⟨hi2, hm2⟩ := scanStep_inv_measure db b _ hi
      exact ⟨hi2, hm2.trans hm⟩)
    offsets s ⟨h, le_refl _⟩

theorem floodStep_inv_measure (mine : ℕ → ℕ → Bool) (db : MapState)
    (x y : ℕ) (s : FloodSt) (h : VisitedInv s) :
    VisitedInv (floodStep mine db x y s) ∧
      floodMeasure (floodStep mine db x y s) ≤ floodMeasure s := by
  simp only [floodStep]
  split_ifs with h1 h2
  · exact ⟨h, le_refl _⟩
  · exact scanNeighbors_inv_measure db x y _ h
  · exact ⟨h, le_refl _⟩

theorem floodLoop_drains (mine : ℕ → ℕ → Bool) (db : MapState) :
    ∀ (fuel : ℕ) (s : FloodSt), VisitedInv s → floodMeasure s ≤ fuel →
      (floodLoop mine db fuel s).queue = [] := by
  intro fuel
  induction fuel with
  | zero =>
    intro s hi hm
    have : s.queue = [] := by
      rw [← List.length_eq_zero]
      simp only [floodMeasure] at hm
      omega
    simpa [floodLoop] using this
  | succ n ih =>
    intro s hi hm
    cases hq : s.queue with
    | nil => simp [floodLoop, hq]
    | cons c rest =>
      simp only [floodLoop, hq]
      have htail : VisitedInv { s with queue := rest } := hi
      obtain ⟨hi2, hm2⟩ := floodStep_inv_measure mine db c.1 c.2 _ htail
      apply ih _ hi2
      have hm3 : floodMeasure { s with queue := rest } + 1 = floodMeasure s := by
        simp only [floodMeasure, hq, List.length_cons]
        omega
      omega

theorem floodLoop_cells_le (mine : ℕ → ℕ → Bool) (db : MapState) :
    ∀ (fuel : ℕ) (s : FloodSt),
      (floodLoop mine db fuel s).cellsToReveal.length ≤
        s.cellsToReveal.length + fuel := by
  intro fuel
  induction fuel with
  | zero => intro s; simp [floodLoop]
  | succ n ih =>
    intro s
    cases hq : s.queue with
    | nil => simp [floodLoop, hq]
    | cons c rest =>
      simp only [floodLoop, hq]
      refine (ih _).trans ?_
      have hstep : (floodStep mine db c.1 c.2 { s with queue := rest }).cellsToReveal.length ≤
          s.cellsToReveal.length + 1 := by
        simp only [floodStep]
        split_ifs
        · simp
        · rw [scanNeighbors_cells]
          simp
        · simp
      omega

/-- C8: for every in-range starting cell and every stored state, the
flood-fill drains its queue within the a-priori bound `W·H` of pops
(termination), and collects (hence upserts) at most `W·H` cells. -/
theorem claim8_termination (mine : ℕ → ℕ → Bool) (db : MapState) (x y : ℕ)
    (hx : x < MAP_WIDTH) (hy : y < MAP_HEIGHT) :
    (floodResult mine db x y).queue = [] ∧
    (floodResult mine db x y).cellsToReveal.length ≤ MAP_WIDTH * MAP_HEIGHT := by
  constructor
  · apply floodLoop_drains
    · refine ⟨List.nodup_singleton _, ?_⟩
      intro v hv
      rcases List.mem_singleton.mp hv with rfl
      exact ⟨hx, hy⟩
    · simp only [floodMeasure, floodInit, List.length_singleton]
      have : (1 : ℕ) ≤ MAP_WIDTH * MAP_HEIGHT := by norm_num [MAP_WIDTH, MAP_HEIGHT]
      omega
  · have := floodLoop_cells_le mine db (MAP_WIDTH * MAP_HEIGHT) (floodInit x y)
    simpa [floodInit, floodResult] using this

/-- C8 witness at `(0, 0)` on the empty database with the all-mines
oracle. -/
theorem claim8_witness :
    (floodResult (fun a b => true) [] 0 0).queue = [] ∧
    (floodResult (fun a b => true) [] 0 0).cellsToReveal.length ≤
      MAP_WIDTH * MAP_HEIGHT :=
  claim8_termination (fun a b => true) [] 0 0 (by norm_num [MAP_WIDTH])
    (by norm_num [MAP_HEIGHT])

/-! ### C2: flood-fill visited discipline, and C1: score accounting -/

theorem floodLoop_preserve (mine : ℕ → ℕ → Bool) (db : MapState)
    (P : FloodSt → Prop)
    (hstep : ∀ x y s, P s → P (floodStep mine db x y s))
    (htail : ∀ (s : FloodSt) (c : Coord) (rest : List Coord),
      s.queue = c :: rest → P s → P { s with queue := rest }) :
    ∀ (fuel : ℕ) (s : FloodSt), P s → P (floodLoop mine db fuel s) := by
  intro fuel
  induction fuel with
  | zero => intro s hs; simpa [floodLoop] using hs
  | succ n ih =>
    intro s hs
    cases hq : s.queue with
    | nil => simpa [floodLoop, hq] using hs
    | cons c rest =>
      simp only [floodLoop, hq]
      exact ih _ (hstep c.1 c.2 _ (htail s c rest hq hs))

theorem scanStep_enq_nodup (db : MapState) (s : FloodSt) (eff : Coord)
    (h1 : s.visited = s.enqueued) (h2 : s.enqueued.Nodup) :
    (scanStep db s eff).visited = (scanStep db s eff).enqueued ∧
      (scanStep db s eff).enqueued.Nodup := by
  unfold scanStep
  split_ifs with hc hb
  · exact ⟨h1, h2⟩
  · refine ⟨by rw [h1], ?_⟩
    apply nodup_append_singleton _ _ h2
    rw [← h1]
    exact hc.2.2
  · exact ⟨h1, h2⟩

theorem scanNeighbors_enq_nodup (db : MapState) (x y : ℕ) (s : FloodSt)
    (h1 : s.visited = s.enqueued) (h2 : s.enqueued.Nodup) :
    (scanNeighbors db x y s).visited = (scanNeighbors db x y s).enqueued ∧
      (scanNeighbors db x y s).enqueued.Nodup :=
  foldl_preserve (fun b => b.visited = b.enqueued ∧ b.enqueued.Nodup) _
    (fun b a hb => scanStep_enq_nodup db b _ hb.1 hb.2) offsets s ⟨h1, h2⟩

/-- C2, counterexample.  With mines everywhere except the patch
`[0,4]×[0,4]`, a flag stored at `(2, 0)`, and a reveal flood started at
`(2, 2)`, the flagged neighbour `(2, 0)` is peeked by three distinct
zero-adjacency cells, so the flood's neighbour-peek log has duplicates:
the code adds a neighbour to `visited` only when it enqueues it, not
unconditionally after the peek as the claim states. -/
theorem claim2_counterexample :
    ¬ (floodResult mine0 db0 2 2).peeks.Nodup := by decide

/-- C2, amended: a neighbour not yet visited is peeked, and it is
enqueued and marked visited together exactly when the peek shows neither
revealed nor flagged; consequently the visited set always equals the set
of enqueued cells and no cell is enqueued more than once per invocation,
but an already revealed or flagged cell may be peeked several times. -/
theorem claim2_amended (mine : ℕ → ℕ → Bool) (db : MapState) (x y : ℕ) :
    (floodResult mine db x y).visited = (floodResult mine db x y).enqueued ∧
    (floodResult mine db x y).enqueued.Nodup := by
  apply floodLoop_preserve mine db
    (fun s => s.visited = s.enqueued ∧ s.enqueued.Nodup)
  · intro x' y' s hs
    simp only [floodStep]
    split_ifs
    · exact hs
    · exact scanNeighbors_enq_nodup db x' y' _ hs.1 hs.2
    · exact hs
  · intro s c rest hq hs
    exact hs
  · exact ⟨rfl, List.nodup_singleton _⟩

theorem lookupPlayer_update_self (ps : Players) (p : String) (δ : ℤ) :
    lookupPlayer (updatePlayerScore ps p δ) p =
      (lookupPlayer ps p).map (fun v => v + δ) := by
  induction ps with
  | nil => rfl
  | cons e t ih =>
    by_cases hep : e.1 = p
    · simp [updatePlayerScore, lookupPlayer, hep]
    · simp only [updatePlayerScore, List.map_cons, lookupPlayer, if_neg hep]
      simpa [updatePlayerScore] using ih

theorem lookupPlayer_update_ne (ps : Players) (p q : String) (δ : ℤ)
    (h : q ≠ p) :
    lookupPlayer (updatePlayerScore ps p δ) q = lookupPlayer ps q := by
  induction ps with
  | nil => rfl
  | cons e t ih =>
    by_cases hep : e.1 = p
    · have heq : ¬ e.1 = q := by rw [hep]; exact fun hh => h hh.symm
      simp only [updatePlayerScore, List.map_cons, if_pos hep, lookupPlayer,
        if_neg heq]
      simpa [updatePlayerScore] using ih
    · by_cases heq : e.1 = q
      · simp [updatePlayerScore, lookupPlayer, hep, heq, h]
      · simp only [updatePlayerScore, List.map_cons, if_neg hep, lookupPlayer,
          if_neg heq]
        simpa [updatePlayerScore] using ih

theorem floodResult_score (mine : ℕ → ℕ → Bool) (db : MapState) (x y : ℕ) :
    (floodResult mine db x y).scoreChange =
      ((floodResult mine db x y).cellsToReveal.length : ℤ) := by
  apply floodLoop_preserve mine db
    (fun s => s.scoreChange = (s.cellsToReveal.length : ℤ))
  · intro x' y' s hs
    simp only [floodStep]
    split_ifs
    · exact hs
    · rw [scanNeighbors_score, scanNeighbors_cells]
      simp only [List.length_append, List.length_singleton, SCORE_REVEAL_SAFE, hs]
      push_cast
      ring
    · simp only [List.length_append, List.length_singleton, SCORE_REVEAL_SAFE, hs]
      push_cast
      ring
  · intro s c rest hq hs
    exact hs
  · rfl


/-- C1: a reveal returning Safe with `k` emitted cells adds exactly `+k`
to the acting player's persisted score, a reveal returning MineHit adds
exactly `−50`, and no other player's score changes; an Ignored reveal
leaves the players table untouched. -/
theorem claim1_score (mine : ℕ → ℕ → Bool) (p : String) (x y : ℕ)
    (st : ServerState) (s0 : ℤ)
    (hp : lookupPlayer st.players p = some s0) :
    (∀ (δ : ℤ) (cells : List OutCell),
        (revealCell mine p x y st).1 = RevealResult.revealed δ cells →
          δ = (cells.length : ℤ) ∧
          lookupPlayer (revealCell mine p x y st).2.players p =
            some (s0 + cells.length) ∧
          ∀ q, q ≠ p →
            lookupPlayer (revealCell mine p x y st).2.players q =
              lookupPlayer st.players q) ∧
    (∀ (δ : ℤ) (stun : ℕ) (cells : List OutCell),
        (revealCell mine p x y st).1 = RevealResult.mineHit δ stun cells →
          δ = -50 ∧
          lookupPlayer (revealCell mine p x y st).2.players p = some (s0 - 50) ∧
          ∀ q, q ≠ p →
            lookupPlayer (revealCell mine p x y st).2.players q =
              lookupPlayer st.players q) ∧
    ((revealCell mine p x y st).1 = RevealResult.ignored →
        (revealCell mine p x y st).2.players = st.players) := by
  by_cases hb : blocked (getCellState st.map_state x y)
  · have hres : revealCell mine p x y st = (RevealResult.ignored, st) := by
      simp [revealCell, hb]
    rw [hres]
    refine ⟨?_, ?_, ?_⟩
    · intro δ cells h; simp at h
    · intro δ stun cells h; simp at h
    · intro _; rfl
  · by_cases hm : mine x y
    · have hres : revealCell mine p x y st =
          (RevealResult.mineHit SCORE_HIT_MINE_PENALTY STUN_DURATION_MS
             [⟨x, y, OutState.mine, some (-1)⟩],
           { map_state := upsertRevealedCellState st.map_state x y (some true) none,
             players := updatePlayerScore st.players p SCORE_HIT_MINE_PENALTY }) := by
        simp [revealCell, hb, hm]
      rw [hres]
      refine ⟨?_, ?_, ?_⟩
      · intro δ cells h; simp at h
      · intro δ stun cells h
        cases h
        refine ⟨rfl, ?_, ?_⟩
        · rw [lookupPlayer_update_self, hp]
          simp [SCORE_HIT_MINE_PENALTY, sub_eq_add_neg]
        · intro q hq
          exact lookupPlayer_update_ne _ _ _ _ hq
      · intro h; simp at h
    · by_cases hlen : (floodResult mine st.map_state x y).cellsToReveal.length = 0
      · have hres : revealCell mine p x y st = (RevealResult.ignored, st) := by
          simp [revealCell, hb, hm, performSafeReveal, hlen]
        rw [hres]
        refine ⟨?_, ?_, ?_⟩
        · intro δ cells h; simp at h
        · intro δ stun cells h; simp at h
        · intro _; rfl
      · have h0 : (floodResult mine st.map_state x y).cellsToReveal.length > 0 :=
          Nat.pos_of_ne_zero hlen
        have hres : revealCell mine p x y st =
            (RevealResult.revealed (floodResult mine st.map_state x y).scoreChange
               ((floodResult mine st.map_state x y).cellsToReveal.map
                 (fun c => ⟨c.x, c.y, OutState.revealed, c.adjacent_mines.map Int.ofNat⟩)),
             { map_state := (floodResult mine st.map_state x y).cellsToReveal.foldl
                 (fun db c => upsertRevealedCellState db c.x c.y c.is_mine c.adjacent_mines)
                 st.map_state,
               players := updatePlayerScore st.players p
                 (floodResult mine st.map_state x y).scoreChange }) := by
          simp [revealCell, hb, hm, performSafeReveal, hlen, h0]
        rw [hres]
        refine ⟨?_, ?_, ?_⟩
        · intro δ cells h
          cases h
          have hscore := floodResult_score mine st.map_state x y
          refine ⟨by rw [List.length_map]; exact hscore, ?_, ?_⟩
          · rw [lookupPlayer_update_self, hp, List.length_map, hscore]
            rfl
          · intro q hq
            exact lookupPlayer_update_ne _ _ _ _ hq
        · intro δ stun cells h; simp at h
        · intro h; simp at h

/-- C1 witness: hitting the mine at `(0, 0)` (all-mines oracle) from the
empty map with one player of score 0. -/
theorem claim1_witness :
    (∀ (δ : ℤ) (cells : List OutCell),
        (revealCell (fun a b => true) "p" 0 0 ⟨[], [("p", 0)]⟩).1 =
            RevealResult.revealed δ cells →
          δ = (cells.length : ℤ) ∧
          lookupPlayer (revealCell (fun a b => true) "p" 0 0 ⟨[], [("p", 0)]⟩).2.players "p" =
            some (0 + cells.length) ∧
          ∀ q, q ≠ "p" →
            lookupPlayer (revealCell (fun a b => true) "p" 0 0 ⟨[], [("p", 0)]⟩).2.players q =
              lookupPlayer (⟨[], [("p", 0)]⟩ : ServerState).players q) ∧
    (∀ (δ : ℤ) (stun : ℕ) (cells : List OutCell),
        (revealCell (fun a b => true) "p" 0 0 ⟨[], [("p", 0)]⟩).1 =
            RevealResult.mineHit δ stun cells →
          δ = -50 ∧
          lookupPlayer (revealCell (fun a b => true) "p" 0 0 ⟨[], [("p", 0)]⟩).2.players "p" =
            some (0 - 50) ∧
          ∀ q, q ≠ "p" →
            lookupPlayer (revealCell (fun a b => true) "p" 0 0 ⟨[], [("p", 0)]⟩).2.players q =
              lookupPlayer (⟨[], [("p", 0)]⟩ : ServerState).players q) ∧
    ((revealCell (fun a b => true) "p" 0 0 ⟨[], [("p", 0)]⟩).1 = RevealResult.ignored →
        (revealCell (fun a b => true) "p" 0 0 ⟨[], [("p", 0)]⟩).2.players =
          (⟨[], [("p", 0)]⟩ : ServerState).players) :=
  claim1_score (fun a b => true) "p" 0 0 ⟨[], [("p", 0)]⟩ 0 rfl

/-! ### C7: flags stop the flood, and C6: revealed cells are immutable -/

theorem getCellState_filter_keep (db : MapState) (f : Coord × CellRec → Bool)
    (x y : ℕ) (hf : ∀ r : CellRec, f ((x, y), r) = true) :
    getCellState (db.filter f) x y = getCellState db x y := by
  induction db with
  | nil => rfl
  | cons e t ih =>
    obtain ⟨k, r⟩ := e
    by_cases hk : k = (x, y)
    · subst hk
      simp [List.filter_cons, hf r, getCellState]
    · by_cases hfe : f (k, r) <;>
        simp [List.filter_cons, hfe, getCellState, hk, ih]

theorem getCellState_upsert_ne (db : MapState) (x y : ℕ) (im : Option Bool)
    (adj : Option ℕ) (a b : ℕ) (h : ¬(x = a ∧ y = b)) :
    getCellState (upsertRevealedCellState db x y im adj) a b =
      getCellState db a b := by
  have hne : ¬ ((x, y) = (a, b)) := by simpa [Prod.ext_iff] using h
  simp only [upsertRevealedCellState, getCellState, if_neg hne]
  apply getCellState_filter_keep
  intro r
  have hne2 : ¬ ((a, b) = (x, y)) := fun hh => hne hh.symm
  simp [hne2]

theorem getCellState_setFlag_ne (db : MapState) (x y : ℕ) (v : Bool)
    (a b : ℕ) (h : ¬(x = a ∧ y = b)) :
    getCellState (setFlagState db x y v) a b = getCellState db a b := by
  have hne : ¬ ((x, y) = (a, b)) := by simpa [Prod.ext_iff] using h
  have hne2 : ¬ ((a, b) = (x, y)) := fun hh => hne hh.symm
  unfold setFlagState
  split_ifs with hv
  · cases hmatch : getCellState db x y with
    | some r => rfl
    | none => simp [getCellState, hne]
  · apply getCellState_filter_keep
    intro r
    simp [hne2]

theorem getCellState_foldl_upsert_ne (l : List CellData) (db : MapState)
    (a b : ℕ) (h : ∀ c ∈ l, ¬(c.x = a ∧ c.y = b)) :
    getCellState
      (l.foldl (fun db c =>
        upsertRevealedCellState db c.x c.y c.is_mine c.adjacent_mines) db) a b =
      getCellState db a b := by
  induction l generalizing db with
  | nil => rfl
  | cons c t ih =>
    rw [List.foldl_cons, ih _ (fun d hd => h d (List.mem_cons_of_mem _ hd)),
      getCellState_upsert_ne _ _ _ _ _ _ _ (h c (List.mem_cons_self _ _))]

theorem scanStep_unblocked (db : MapState) (s : FloodSt) (eff : Coord)
    (h1 : ∀ e ∈ s.enqueued, blocked (getCellState db e.1 e.2) = false)
    (h2 : ∀ e ∈ s.queue, e ∈ s.enqueued)
    (h3 : ∀ c ∈ s.cellsToReveal, blocked (getCellState db c.x c.y) = false) :
    (∀ e ∈ (scanStep db s eff).enqueued,
        blocked (getCellState db e.1 e.2) = false) ∧
    (∀ e ∈ (scanStep db s eff).queue, e ∈ (scanStep db s eff).enqueued) ∧
    (∀ c ∈ (scanStep db s eff).cellsToReveal,
        blocked (getCellState db c.x c.y) = false) := by
  unfold scanStep
  split_ifs with hc hbl
  · exact ⟨h1, h2, h3⟩
  · rw [Bool.not_eq_true] at hbl
    refine ⟨?_, ?_, h3⟩
    · intro e he
      rcases List.mem_append.mp he with he | he
      · exact h1 e he
      · rcases List.mem_singleton.mp he with rfl
        exact hbl
    · intro e he
      rcases List.mem_append.mp he with he | he
      · exact List.mem_append.mpr (Or.inl (h2 e he))
      · exact List.mem_append.mpr (Or.inr he)
  · exact ⟨h1, h2, h3⟩

theorem scanNeighbors_unblocked (db : MapState) (x y : ℕ) (s : FloodSt)
    (h1 : ∀ e ∈ s.enqueued, blocked (getCellState db e.1 e.2) = false)
    (h2 : ∀ e ∈ s.queue, e ∈ s.enqueued)
    (h3 : ∀ c ∈ s.cellsToReveal, blocked (getCellState db c.x c.y) = false) :
    (∀ e ∈ (scanNeighbors db x y s).enqueued,
        blocked (getCellState db e.1 e.2) = false) ∧
    (∀ e ∈ (scanNeighbors db x y s).queue,
        e ∈ (scanNeighbors db x y s).enqueued) ∧
    (∀ c ∈ (scanNeighbors db x y s).cellsToReveal,
        blocked (getCellState db c.x c.y) = false) :=
  foldl_preserve (fun s2 =>
      (∀ e ∈ s2.enqueued, blocked (getCellState db e.1 e.2) = false) ∧
      (∀ e ∈ s2.queue, e ∈ s2.enqueued) ∧
      (∀ c ∈ s2.cellsToReveal, blocked (getCellState db c.x c.y) = false)) _
    (fun b2 a2 hb2 => scanStep_unblocked db b2 _ hb2.1 hb2.2.1 hb2.2.2)
    offsets s ⟨h1, h2, h3⟩

theorem floodResult_unblocked (mine : ℕ → ℕ → Bool) (db : MapState) (x y : ℕ)
    (hstart : blocked (getCellState db x y) = false) :
    (∀ e ∈ (floodResult mine db x y).enqueued,
        blocked (getCellState db e.1 e.2) = false) ∧
    (∀ c ∈ (floodResult mine db x y).cellsToReveal,
        blocked (getCellState db c.x c.y) = false) := by
  have hstep : ∀ (a b : ℕ) (s : FloodSt),
      ((∀ e ∈ s.enqueued, blocked (getCellState db e.1 e.2) = false) ∧
       (∀ e ∈ s.queue, e ∈ s.enqueued) ∧
       (∀ c ∈ s.cellsToReveal, blocked (getCellState db c.x c.y) = false)) →
      ((∀ e ∈ (floodStep mine db a b s).enqueued,
          blocked (getCellState db e.1 e.2) = false) ∧
       (∀ e ∈ (floodStep mine db a b s).queue,
          e ∈ (floodStep mine db a b s).enqueued) ∧
       (∀ c ∈ (floodStep mine db a b s).cellsToReveal,
          blocked (getCellState db c.x c.y) = false)) := by
    intro a b s hs
    simp only [floodStep]
    split_ifs with hb1 hb2
    · exact hs
    · rw [Bool.not_eq_true] at hb1
      have hs1 : (∀ e ∈ s.enqueued, blocked (getCellState db e.1 e.2) = false) ∧
          (∀ e ∈ s.queue, e ∈ s.enqueued) ∧
          (∀ c ∈ s.cellsToReveal ++ [⟨a, b, some false,
              some (calculateAdjacentMines mine a b)⟩],
            blocked (getCellState db c.x c.y) = false) := by
        refine ⟨hs.1, hs.2.1, ?_⟩
        intro c hc
        rcases List.mem_append.mp hc with hc | hc
        · exact hs.2.2 c hc
        · rcases List.mem_singleton.mp hc with rfl
          exact hb1
      exact scanNeighbors_unblocked db a b _ hs1.1 hs1.2.1 hs1.2.2
    · rw [Bool.not_eq_true] at hb1
      refine ⟨hs.1, hs.2.1, ?_⟩
      intro c hc
      rcases List.mem_append.mp hc with hc | hc
      · exact hs.2.2 c hc
      · rcases List.mem_singleton.mp hc with rfl
        exact hb1
  have htail : ∀ (s : FloodSt) (c : Coord) (rest : List Coord),
      s.queue = c :: rest →
      ((∀ e ∈ s.enqueued, blocked (getCellState db e.1 e.2) = false) ∧
       (∀ e ∈ s.queue, e ∈ s.enqueued) ∧
       (∀ c2 ∈ s.cellsToReveal, blocked (getCellState db c2.x c2.y) = false)) →
      ((∀ e ∈ ({ s with queue := rest } : FloodSt).enqueued,
          blocked (getCellState db e.1 e.2) = false) ∧
       (∀ e ∈ ({ s with queue := rest } : FloodSt).queue,
          e ∈ ({ s with queue := rest } : FloodSt).enqueued) ∧
       (∀ c2 ∈ ({ s with queue := rest } : FloodSt).cellsToReveal,
          blocked (getCellState db c2.x c2.y) = false)) := by
    intro s c rest hq hs
    refine ⟨hs.1, ?_, hs.2.2⟩
    intro e he
    exact hs.2.1 e (by rw [hq]; exact List.mem_cons_of_mem _ he)
  have hinit : (∀ e ∈ (floodInit x y).enqueued,
        blocked (getCellState db e.1 e.2) = false) ∧
      (∀ e ∈ (floodInit x y).queue, e ∈ (floodInit x y).enqueued) ∧
      (∀ c ∈ (floodInit x y).cellsToReveal,
        blocked (getCellState db c.x c.y) = false) := by
    refine ⟨?_, ?_, ?_⟩
    · intro e he
      rcases List.mem_singleton.mp he with rfl
      exact hstart
    · intro e he
      exact he
    · intro c hc
      simp [floodInit] at hc
  have key := floodLoop_preserve mine db _ hstep htail
    (MAP_WIDTH * MAP_HEIGHT) (floodInit x y) hinit
  exact ⟨key.1, key.2.2⟩

/-- C7: a reveal on a safe, unflagged, unrevealed cell never enqueues a
cell flagged before the call, never lists it in the flood result, and
leaves its stored record byte-for-byte unchanged: the flood stops at the
flag boundary. -/
theorem claim7_flag_frame (mine : ℕ → ℕ → Bool) (p : String) (x y a b : ℕ)
    (st : ServerState) (rec : CellRec)
    (hstart : blocked (getCellState st.map_state x y) = false)
    (hsafe : mine x y = false)
    (hflag : getCellState st.map_state a b = some rec)
    (hfl : rec.flag_state = true) :
    (a, b) ∉ (floodResult mine st.map_state x y).enqueued ∧
    (∀ c ∈ (floodResult mine st.map_state x y).cellsToReveal,
      ¬ (c.x = a ∧ c.y = b)) ∧
    getCellState (revealCell mine p x y st).2.map_state a b = some rec := by
  have hab : blocked (getCellState st.map_state a b) = true := by
    rw [hflag]
    simp [blocked, hfl]
  obtain ⟨henq, hcells⟩ := floodResult_unblocked mine st.map_state x y hstart
  have hkeys : ∀ c ∈ (floodResult mine st.map_state x y).cellsToReveal,
      ¬(c.x = a ∧ c.y = b) := by
    rintro c hc ⟨h1, h2⟩
    have hcu := hcells c hc
    rw [h1, h2, hab] at hcu
    exact Bool.noConfusion hcu
  refine ⟨?_, hkeys, ?_⟩
  · intro hmem
    have h2 : blocked (getCellState st.map_state a b) = false := henq (a, b) hmem
    rw [hab] at h2
    exact Bool.noConfusion h2
  · have hbx : ¬ (blocked (getCellState st.map_state x y) = true) := by
      rw [hstart]
      exact Bool.false_ne_true
    have hmx : ¬ (mine x y = true) := by
      rw [hsafe]
      exact Bool.false_ne_true
    by_cases hlen : (floodResult mine st.map_state x y).cellsToReveal.length = 0
    · have hres : revealCell mine p x y st = (RevealResult.ignored, st) := by
        simp [revealCell, hbx, hmx, performSafeReveal, hlen]
      rw [hres]
      exact hflag
    · have h0 : (floodResult mine st.map_state x y).cellsToReveal.length > 0 :=
        Nat.pos_of_ne_zero hlen
      have hres : (revealCell mine p x y st).2.map_state =
          (floodResult mine st.map_state x y).cellsToReveal.foldl
            (fun db c =>
              upsertRevealedCellState db c.x c.y c.is_mine c.adjacent_mines)
            st.map_state := by
        simp [revealCell, hbx, hmx, performSafeReveal, hlen, h0]
      rw [hres, getCellState_foldl_upsert_ne _ _ _ _ hkeys]
      exact hflag

/-- C7 witness: the fixture flag at `(2, 0)` with a mine-free oracle and
a reveal at `(2, 2)`. -/
theorem claim7_witness :
    (2, 0) ∉ (floodResult (fun a b => false) db0 2 2).enqueued ∧
    (∀ c ∈ (floodResult (fun a b => false) db0 2 2).cellsToReveal,
      ¬ (c.x = 2 ∧ c.y = 0)) ∧
    getCellState (revealCell (fun a b => false) "p" 2 2 ⟨db0, []⟩).2.map_state 2 0 =
      some ⟨false, none, none, true⟩ :=
  claim7_flag_frame (fun a b => false) "p" 2 2 2 0 ⟨db0, []⟩
    ⟨false, none, none, true⟩ rfl rfl rfl rfl


theorem applyOp_preserves_revealed (mine : ℕ → ℕ → Bool) (st : ServerState)
    (op : Op) (x y : ℕ) (rec : CellRec)
    (h : getCellState st.map_state x y = some rec) (hrev : rec.revealed = true) :
    getCellState (applyOp mine st op).map_state x y = some rec := by
  have hb : blocked (getCellState st.map_state x y) = true := by
    rw [h]
    simp [blocked, hrev]
  cases op with
  | click p a b =>
    simp only [applyOp]
    by_cases hb2 : blocked (getCellState st.map_state a b) = true
    · simp [revealCell, hb2, h]
    · have hab : ¬ (a = x ∧ b = y) := by
        rintro ⟨rfl, rfl⟩
        exact hb2 hb
      by_cases hm : mine a b = true
      · have hres : (revealCell mine p a b st).2.map_state =
            upsertRevealedCellState st.map_state a b (some true) none := by
          simp [revealCell, hb2, hm]
        rw [hres, getCellState_upsert_ne _ _ _ _ _ _ _ hab]
        exact h
      · have hstart : blocked (getCellState st.map_state a b) = false :=
          Bool.not_eq_true _ |>.mp hb2
        obtain ⟨henq, hcells⟩ := floodResult_unblocked mine st.map_state a b hstart
        have hkeys : ∀ c ∈ (floodResult mine st.map_state a b).cellsToReveal,
            ¬(c.x = x ∧ c.y = y) := by
          rintro c hc ⟨h1, h2⟩
          have hcu := hcells c hc
          rw [h1, h2, hb] at hcu
          exact Bool.noConfusion hcu
        by_cases hlen : (floodResult mine st.map_state a b).cellsToReveal.length = 0
        · have hres : revealCell mine p a b st = (RevealResult.ignored, st) := by
            simp [revealCell, hb2, hm, performSafeReveal, hlen]
          rw [hres]
          exact h
        · have h0 : (floodResult mine st.map_state a b).cellsToReveal.length > 0 :=
            Nat.pos_of_ne_zero hlen
          have hres : (revealCell mine p a b st).2.map_state =
              (floodResult mine st.map_state a b).cellsToReveal.foldl
                (fun db c =>
                  upsertRevealedCellState db c.x c.y c.is_mine c.adjacent_mines)
                st.map_state := by
            simp [revealCell, hb2, hm, performSafeReveal, hlen, h0]
          rw [hres, getCellState_foldl_upsert_ne _ _ _ _ hkeys]
          exact h
  | flag p a b =>
    simp only [applyOp]
    by_cases hab : a = x ∧ b = y
    · obtain ⟨rfl, rfl⟩ := hab
      simp [toggleFlag, h, hrev]
    · simp only [toggleFlag]
      split_ifs
      · exact h
      · rw [getCellState_setFlag_ne _ _ _ _ _ _ hab]
        exact h
      · rw [getCellState_setFlag_ne _ _ _ _ _ _ hab]
        exact h

/-- C6: once a stored record is revealed it survives every later reveal
or toggleFlag operation unchanged (no un-reveal, no flag, no change of
`is_mine` or `adjacent_mines`, no deletion), and both operations on an
already-revealed cell return Ignored without writing anything. -/
theorem claim6_revealed_immutable (mine : ℕ → ℕ → Bool) (ops : List Op)
    (st : ServerState) (x y : ℕ) (rec : CellRec)
    (h : getCellState st.map_state x y = some rec) (hrev : rec.revealed = true) :
    getCellState (applyOps mine ops st).map_state x y = some rec ∧
    ∀ p, revealCell mine p x y st = (RevealResult.ignored, st) ∧
         toggleFlag p x y st = (FlagResult.ignored, st) := by
  constructor
  · induction ops generalizing st with
    | nil => simpa [applyOps] using h
    | cons op t ih =>
      have hstep := applyOp_preserves_revealed mine st op x y rec h hrev
      simpa [applyOps] using ih (applyOp mine st op) hstep
  · intro p
    constructor
    · simp [revealCell, blocked, h, hrev]
    · simp [toggleFlag, h, hrev]

/-- C6 witness: one revealed record at `(0, 0)` and a later flag attempt
on it. -/
theorem claim6_witness :
    getCellState (applyOps (fun a b => true) [Op.flag "a" 0 0]
      ⟨[((0, 0), rec0)], []⟩).map_state 0 0 = some rec0 ∧
    ∀ p, revealCell (fun a b => true) p 0 0 ⟨[((0, 0), rec0)], []⟩ =
           (RevealResult.ignored, ⟨[((0, 0), rec0)], []⟩) ∧
         toggleFlag p 0 0 ⟨[((0, 0), rec0)], []⟩ =
           (FlagResult.ignored, ⟨[((0, 0), rec0)], []⟩) :=
  claim6_revealed_immutable (fun a b => true) [Op.flag "a" 0 0]
    ⟨[((0, 0), rec0)], []⟩ 0 0 rec0 rfl rfl

end Minesweeper
